import Mathlib

/-!
Verification development for the Tier 2 audit workflow engine
(`src/tools/tier2/workflow-runner.ts`).

The embedding translates the workflow runner into Lean:
* provider payloads are abstracted by a type parameter `α` (the concrete
  per-tool response records carry no logic that the verified properties
  depend on);
* JavaScript numbers holding item weights are modelled as `Int`, with
  `Math.round` modelled exactly on rationals (`Math.round x = ⌊x + 1/2⌋`,
  JS rounds half toward +∞);
* wall-clock time is modelled by a virtual clock measured in milliseconds
  from the workflow start; each provider call and each awaited external
  progress-sink call consumes a configurable duration;
* the local synchronous `onProgress` sink is fire-and-forget and consumes
  no time; it is not modelled (no verified property concerns it);
* the human-readable `summary` string built by `buildSummary` and the
  provider-specific `details` payloads of `buildToolResultSummary` are not
  modelled (no verified property concerns them); the per-tool success
  status computation of `buildToolResultSummary` operates on the concrete
  payloads and is abstracted as the environment function `summarize`.
-/

namespace WorkflowRunner

/-- The eleven Tier 1 tool names (`Tier1ToolName` in `types.ts`). -/
inductive Tier1Tool
  | ogp | headings | links | speed | alt | siteConfig
  | securityHeaders | cache | schema | redirect | image
deriving DecidableEq

/-- Fixed canonical execution order (workflow-runner.ts lines 605-617). -/
def executionOrder : List Tier1Tool :=
  [.ogp, .headings, .alt, .links, .siteConfig, .securityHeaders,
   .cache, .schema, .redirect, .image, .speed]

/-- Model of `CheckStatus` from `types.ts`. -/
inductive CheckStatus
  | pass | warn | fail | error | skipped | manual
deriving DecidableEq

/-- One entry of the collected tool-results map: `{data}` or `{error}`. -/
inductive ToolOutcome (α : Type)
  | data (d : α)
  | err (msg : String)
deriving DecidableEq

/-- Model of `CollectedToolResults`: each field starts as `null` (here `none`). -/
def CollectedToolResults (α : Type) : Type := Tier1Tool → Option (ToolOutcome α)

/-- The `{status, detail?}` record returned by an item's `evaluate`. -/
structure EvalResult where
  status : CheckStatus
  detail : Option String
deriving DecidableEq

/-- Model of `CheckItemDefinition` from `types.ts`. -/
structure CheckItemDefinition (α : Type) where
  id : String
  category : String
  label : String
  weight : Int
  autoVerifiable : Bool
  tier1Tool : Option Tier1Tool
  evaluate : Option (CollectedToolResults α → EvalResult)

/-- Model of `CheckItemResult` from `types.ts`. -/
structure CheckItemResult where
  id : String
  category : String
  label : String
  status : CheckStatus
  detail : Option String
deriving DecidableEq

/-- Evaluation of one checklist item (workflow-runner.ts lines 695-740). -/
def evaluateItem {α : Type} (toolResults : CollectedToolResults α)
    (item : CheckItemDefinition α) : CheckItemResult :=
  if item.autoVerifiable = false then
    ⟨item.id, item.category, item.label, .manual, some "手動で確認が必要です"⟩
  else
    match item.evaluate, item.tier1Tool with
    | some ev, some t =>
      match toolResults t with
      | none =>
        ⟨item.id, item.category, item.label, .error,
          some "ツールが実行されませんでした"⟩
      | some (.err m) => ⟨item.id, item.category, item.label, .error, some m⟩
      | some (.data _) =>
        let r := ev toolResults
        ⟨item.id, item.category, item.label, r.status, r.detail⟩
    | _, _ =>
      ⟨item.id, item.category, item.label, .skipped, some "評価関数が未定義"⟩

/-- Value of `Math.round (w * 0.5)` for an integer `w` (JS rounds half toward +∞). -/
def jsHalfRound (w : Int) : Int := (w + 1).fdiv 2

/-- Scorable items (workflow-runner.ts lines 746-748). -/
def scorableItems {α : Type} (checkItems : List (CheckItemDefinition α)) :
    List (CheckItemDefinition α) :=
  checkItems.filter fun item =>
    item.autoVerifiable && item.evaluate.isSome && item.tier1Tool.isSome

/-- Evaluable items: the scorer's id-based lookup (lines 749-752). -/
def evaluableItems {α : Type} (checkItems : List (CheckItemDefinition α))
    (evaluatedItems : List CheckItemResult) : List (CheckItemDefinition α) :=
  (scorableItems checkItems).filter fun item =>
    match evaluatedItems.find? (fun e => decide (e.id = item.id)) with
    | some e => decide (e.status ≠ .error)
    | none => false

/-- The `maxScore` reduction (line 753). -/
def maxScoreOf {α : Type} (evaluable : List (CheckItemDefinition α)) : Int :=
  evaluable.foldl (fun s item => s + item.weight) 0

/-- The `earnedScore` accumulation (lines 755-762). -/
def earnedScoreOf {α : Type} (evaluatedItems : List CheckItemResult)
    (evaluable : List (CheckItemDefinition α)) : Int :=
  evaluable.foldl
    (fun s item =>
      match evaluatedItems.find? (fun e => decide (e.id = item.id)) with
      | none => s
      | some e =>
        if e.status = .pass then s + item.weight
        else if e.status = .warn then s + jsHalfRound item.weight
        else s)
    0

/-- Value of `Math.round (earned / maxScore * 100)`, exact on rationals (line 764). -/
def scoreOf (maxS earned : Int) : Int :=
  if maxS > 0 then (200 * earned + maxS).fdiv (2 * maxS) else 0

/-- The whole scoring pipeline (lines 695-764) as a function of the
    checklist and the collected results map. -/
def computeScore {α : Type} (checkItems : List (CheckItemDefinition α))
    (tr : CollectedToolResults α) : Int :=
  let evaluated := checkItems.map (evaluateItem tr)
  let evaluable := evaluableItems checkItems evaluated
  scoreOf (maxScoreOf evaluable) (earnedScoreOf evaluated evaluable)

/-- The constant `WORKFLOW_TIMEOUT_MS` (workflow-runner.ts line 48). -/
def workflowTimeoutMs : Nat := 60000

/-- Error message recorded for providers skipped because the deadline had
    already passed (lines 648 and 683). -/
def timeoutSkipMsg : String := "ワークフロータイムアウト（60秒）により実行をスキップ"

/-- Error message substituted when the time budget elapses while a provider
    call is in flight (line 662). -/
def timeoutExceededMsg : String := "ワークフロータイムアウト（60秒）超過"

/-- The substring the loop tests with `result.error.includes` (line 680). -/
def timeoutMarker : String := "タイムアウト（60秒）"

/-- JavaScript `s.includes(sub)`. -/
def strIncludes (s sub : String) : Bool := decide (List.IsInfix sub.toList s.toList)

/-- Behaviour of one provider call in the modelled environment: how long the
    call takes, and whether it resolves with data or throws/rejects. -/
structure ToolBehavior (α : Type) where
  duration : Nat
  outcome : Except String α

/-- Behaviour of one awaited external progress-sink call: how long the await
    takes, and, when `fails = some msg`, the rejection it ends with. -/
structure SinkBehavior where
  duration : Nat
  fails : Option String

/-- The modelled environment of one `runWorkflow` invocation: provider
    behaviours, external-sink presence and behaviour (indexed by call
    number), and the abstracted per-tool success summarisation of
    `buildToolResultSummary` (lines 207-532). -/
structure Env (α : Type) where
  tool : Tier1Tool → ToolBehavior α
  hasSink : Bool
  sink : Nat → SinkBehavior
  summarize : Tier1Tool → α → CheckStatus

/-- Chronological trace events of a run: external-sink deliveries (the
    `progress` and `total` arguments) and provider invocations (the moments
    `executeTier1Tool` is called). -/
inductive Ev
  | sink (progress total : Nat)
  | invoke (t : Tier1Tool)
deriving DecidableEq

/-- Mutable state of the execution loop. -/
structure LoopState (α : Type) where
  clock : Nat
  results : CollectedToolResults α
  trace : List Ev
  sinkIdx : Nat

/-- Result of the loop: normal completion, or abort by a rejecting
    external-sink call (the un-caught `await sendProgress?.(...)`). -/
inductive LoopOut (α : Type)
  | done (s : LoopState α)
  | sinkFail (s : LoopState α) (msg : String)

/-- Point update of the collected-results map. -/
def updateResults {α : Type} (r : CollectedToolResults α) (t : Tier1Tool)
    (v : Option (ToolOutcome α)) : CollectedToolResults α :=
  fun t' => if t' = t then v else r t'

/-- Mark every tool of the list with the timeout-skip failure
    (lines 646-650 and 681-685). -/
def markSkipped {α : Type} (r : CollectedToolResults α) :
    List Tier1Tool → CollectedToolResults α
  | [] => r
  | t :: ts => markSkipped (updateResults r t (some (.err timeoutSkipMsg))) ts

/-- Model of `executeTier1Tool` (lines 69-106): a resolving call yields its data, a
    throwing or rejecting call is caught and becomes `{error: message}`. -/
def executeTier1Tool {α : Type} (env : Env α) (t : Tier1Tool) : ToolOutcome α :=
  match (env.tool t).outcome with
  | .ok d => .data d
  | .error m => .err m

/-- One `await sendProgress?.(p, tot, msg)`: when a sink was supplied, the
    event is delivered, the await consumes the call's duration, and the
    call's rejection (if any) is reported to the caller of `emitSink`. -/
def emitSink {α : Type} (env : Env α) (s : LoopState α) (p tot : Nat) :
    LoopState α × Option String :=
  if env.hasSink then
    let b := env.sink s.sinkIdx
    ({ s with
        trace := s.trace ++ [.sink p tot]
        clock := s.clock + b.duration
        sinkIdx := s.sinkIdx + 1 }, b.fails)
  else (s, none)

/-- The sequential provider-execution loop (lines 640-688).

    Per iteration: the deadline is checked before anything else (an expired
    deadline marks the current and all remaining providers as skipped and
    stops the loop); the per-provider progress event is awaited; then the
    provider call is raced against a timer armed with the remaining budget
    that was read before the sink call.  A race the timer wins (modelled as
    `duration ≥ remaining`; the provider's promise has still been started)
    records the timeout-exceeded failure.  A recorded error whose message
    contains the timeout marker makes the loop mark all subsequent providers
    as skipped and stop. -/
def runLoop {α : Type} (env : Env α) (total : Nat) :
    List Tier1Tool → Nat → LoopState α → LoopOut α
  | [], _, s => .done s
  | t :: rest, i, s =>
    let remaining : Int := (workflowTimeoutMs : Int) - (s.clock : Int)
    if remaining ≤ 0 then
      .done { s with results := markSkipped s.results (t :: rest) }
    else
      match emitSink env s (i + 1) (total + 1) with
      | (s1, some msg) => .sinkFail s1 msg
      | (s1, none) =>
        let b := env.tool t
        let s2 := { s1 with trace := s1.trace ++ [Ev.invoke t] }
        let res : ToolOutcome α :=
          if (b.duration : Int) < remaining then executeTier1Tool env t
          else .err timeoutExceededMsg
        let clock3 :=
          if (b.duration : Int) < remaining then s2.clock + b.duration
          else s2.clock + remaining.toNat
        let s3 :=
          { s2 with clock := clock3, results := updateResults s2.results t (some res) }
        match res with
        | .err m =>
          if strIncludes m timeoutMarker then
            .done { s3 with results := markSkipped s3.results rest }
          else runLoop env total rest (i + 1) s3
        | .data _ => runLoop env total rest (i + 1) s3

/-- The deduplicated, canonically ordered provider schedule
    (lines 596-618): the set of tools referenced by auto-verifiable items,
    ordered by filtering the fixed execution order. -/
def toolsToExecuteFor {α : Type} (checkItems : List (CheckItemDefinition α)) :
    List Tier1Tool :=
  executionOrder.filter fun t =>
    checkItems.any fun item =>
      item.autoVerifiable && decide (item.tier1Tool = some t)

/-- The whole execution phase (lines 593-692): initial progress event, the
    loop, final progress event. -/
def runExec {α : Type} (env : Env α)
    (checkItems : List (CheckItemDefinition α)) : LoopOut α :=
  let tools := toolsToExecuteFor checkItems
  let total := tools.length
  let s0 : LoopState α := ⟨0, fun _ => none, [], 0⟩
  match emitSink env s0 0 (total + 1) with
  | (s1, some msg) => .sinkFail s1 msg
  | (s1, none) =>
    match runLoop env total tools 0 s1 with
    | .sinkFail s m => .sinkFail s m
    | .done s =>
      match emitSink env s (total + 1) (total + 1) with
      | (s2, some msg) => .sinkFail s2 msg
      | (s2, none) => .done s2

/-- Status summarising one scheduled tool's entry in the report's `results`
    map (lines 194-533; the success case is tool-specific and abstracted). -/
def toolSummaryStatus {α : Type} (summarize : Tier1Tool → α → CheckStatus)
    (t : Tier1Tool) (r : Option (ToolOutcome α)) : CheckStatus :=
  match r with
  | none => .skipped
  | some (.err _) => .error
  | some (.data d) => summarize t d

/-- The `checklist` section of the report (lines 781-789). -/
structure ChecklistSection where
  total : Nat
  passed : Nat
  warned : Nat
  failed : Nat
  errors : Nat
  manual : Nat
  items : List CheckItemResult
deriving DecidableEq

/-- Model of `AuditReport` (the modelled fields; `summary` and per-tool `details`
    are omitted, see the header comment). -/
structure AuditReport where
  url : String
  auditType : String
  score : Int
  results : List (Tier1Tool × CheckStatus)
  checklist : ChecklistSection
deriving DecidableEq

/-- Report assembly from the final results map (lines 694-791). -/
def buildReport {α : Type} (env : Env α) (url auditType : String)
    (checkItems : List (CheckItemDefinition α))
    (tr : CollectedToolResults α) : AuditReport :=
  let evaluatedItems := checkItems.map (evaluateItem tr)
  { url := url
    auditType := auditType
    score := computeScore checkItems tr
    results :=
      (toolsToExecuteFor checkItems).map fun t =>
        (t, toolSummaryStatus env.summarize t (tr t))
    checklist :=
      { total := evaluatedItems.length
        passed := (evaluatedItems.filter fun i => decide (i.status = .pass)).length
        warned := (evaluatedItems.filter fun i => decide (i.status = .warn)).length
        failed := (evaluatedItems.filter fun i => decide (i.status = .fail)).length
        errors := (evaluatedItems.filter fun i => decide (i.status = .error)).length
        manual := (evaluatedItems.filter fun i => decide (i.status = .manual)).length
        items := evaluatedItems } }

/-- Observable outcome of one `runWorkflow` call: the chronological trace,
    and either the returned report or the exception the returned promise
    rejects with. -/
structure RunOutcome where
  trace : List Ev
  result : Except String AuditReport

/-- The state a `LoopOut` carries, whichever way the loop ended. -/
def LoopOut.state {α : Type} : LoopOut α → LoopState α
  | .done s => s
  | .sinkFail s _ => s

/-- The final collected-results map of a run (empty when the run was
    aborted by a sink rejection and never reached report assembly). -/
def execResults {α : Type} (env : Env α)
    (checkItems : List (CheckItemDefinition α)) : CollectedToolResults α :=
  match runExec env checkItems with
  | .done s => s.results
  | .sinkFail _ _ => fun _ => none

/-- Model of `runWorkflow` (lines 586-791). -/
def runWorkflow {α : Type} (env : Env α) (url auditType : String)
    (checkItems : List (CheckItemDefinition α)) : RunOutcome :=
  match runExec env checkItems with
  | .sinkFail s msg => ⟨s.trace, .error msg⟩
  | .done s => ⟨s.trace, .ok (buildReport env url auditType checkItems s.results)⟩

/-! ## Specification-side scoring (refinement target)

The following definitions are modelled from the words of the specification's
scoring laws (spec §4.4 and the claims built on it), to be compared with the
source-derived pipeline `computeScore`: each item's evaluability and
contribution are determined by that item's *own* evaluated status, not by an
id-based lookup. -/

/-- Spec wording: scorable items are those with `autoVerifiable`, `evaluate`
    and a provider reference all defined. -/
def specScorable {α : Type} (checkItems : List (CheckItemDefinition α)) :
    List (CheckItemDefinition α) :=
  checkItems.filter fun item =>
    item.autoVerifiable && item.evaluate.isSome && item.tier1Tool.isSome

/-- Spec wording: evaluable items are the scorable items whose own evaluated
    status is not `error`. -/
def specEvaluable {α : Type} (checkItems : List (CheckItemDefinition α))
    (tr : CollectedToolResults α) : List (CheckItemDefinition α) :=
  (specScorable checkItems).filter fun item =>
    decide ((evaluateItem tr item).status ≠ .error)

/-- Spec wording: full weight for `pass`, `round(weight × 0.5)` for `warn`,
    `0` for `fail` (any other status also contributes nothing, matching the
    scorer's else-branch). -/
def specContribution (w : Int) : CheckStatus → Int
  | .pass => w
  | .warn => jsHalfRound w
  | _ => 0

/-- Spec wording: `maxScore` is the sum of the evaluable items' weights. -/
def specMaxScore {α : Type} (checkItems : List (CheckItemDefinition α))
    (tr : CollectedToolResults α) : Int :=
  ((specEvaluable checkItems tr).map (fun i => i.weight)).sum

/-- Spec wording: `earned` sums the evaluable items' contributions. -/
def specEarned {α : Type} (checkItems : List (CheckItemDefinition α))
    (tr : CollectedToolResults α) : Int :=
  ((specEvaluable checkItems tr).map
    (fun i => specContribution i.weight (evaluateItem tr i).status)).sum

/-- Spec wording: `score = round(earned / maxScore × 100)` when
    `maxScore > 0`, else `0`. -/
def specScore {α : Type} (checkItems : List (CheckItemDefinition α))
    (tr : CollectedToolResults α) : Int :=
  scoreOf (specMaxScore checkItems tr) (specEarned checkItems tr)

/-! ## Helper lemmas -/

/-- Evaluation preserves the item id in every branch. -/
lemma evaluateItem_id {α : Type} (tr : CollectedToolResults α)
    (item : CheckItemDefinition α) : (evaluateItem tr item).id = item.id := by
  unfold evaluateItem
  split
  · rfl
  · split
    · split <;> rfl
    · rfl

/-- With pairwise-distinct ids the scorer's first-match lookup finds exactly
    the item's own evaluated result. -/
lemma find?_evaluated_of_nodup {α : Type} (tr : CollectedToolResults α) :
    ∀ (items : List (CheckItemDefinition α)),
      (items.map CheckItemDefinition.id).Nodup →
      ∀ item ∈ items,
        (items.map (evaluateItem tr)).find?
            (fun e => decide (e.id = item.id)) = some (evaluateItem tr item)
  | [], _, item, h => absurd h (List.not_mem_nil item)
  | a :: items, hnd, item, h => by
    rcases List.mem_cons.mp h with rfl | hmem
    · simp [List.find?, evaluateItem_id]
    · have hne : a.id ≠ item.id := by
        intro hEq
        have : item.id ∈ items.map CheckItemDefinition.id :=
          List.mem_map_of_mem CheckItemDefinition.id hmem
        rw [← hEq] at this
        exact (List.nodup_cons.mp hnd).1 this
      have ih :=
        find?_evaluated_of_nodup tr items (List.nodup_cons.mp hnd).2 item hmem
      simp [List.find?, evaluateItem_id, hne, ih]

/-- The source's scorable-item filter coincides with the spec's wording. -/
lemma scorable_eq_spec {α : Type} (items : List (CheckItemDefinition α)) :
    scorableItems items = specScorable items := rfl

/-- Under pairwise-distinct ids the scorer's lookup-based evaluable list is
    the spec's own-status evaluable list. -/
lemma evaluable_eq_spec {α : Type} (items : List (CheckItemDefinition α))
    (tr : CollectedToolResults α)
    (h : (items.map CheckItemDefinition.id).Nodup) :
    evaluableItems items (items.map (evaluateItem tr)) = specEvaluable items tr := by
  unfold evaluableItems specEvaluable
  rw [← scorable_eq_spec]
  apply List.filter_congr
  intro i hi
  have hmem : i ∈ items := List.mem_of_mem_filter hi
  rw [find?_evaluated_of_nodup tr items h i hmem]

/-- Folding `+ weight` is summing the weights. -/
lemma foldl_add_weight {α : Type} (l : List (CheckItemDefinition α)) (a : Int) :
    l.foldl (fun s item => s + item.weight) a
      = a + (l.map (fun i => i.weight)).sum := by
  induction l generalizing a with
  | nil => simp
  | cons x xs ih => simp [ih, add_assoc]

/-- The `maxScore` fold is the sum of the evaluable weights. -/
lemma maxScoreOf_eq_sum {α : Type} (l : List (CheckItemDefinition α)) :
    maxScoreOf l = (l.map (fun i => i.weight)).sum := by
  unfold maxScoreOf
  rw [foldl_add_weight]
  simp

/-- When every lookup resolves to the item's own result, the earned-score
    fold is the sum of per-item contributions. -/
lemma earnedScoreOf_eq_sum {α : Type} (tr : CollectedToolResults α)
    (items : List (CheckItemDefinition α)) :
    ∀ (l : List (CheckItemDefinition α)),
      (∀ i ∈ l,
        (items.map (evaluateItem tr)).find? (fun e => decide (e.id = i.id))
          = some (evaluateItem tr i)) →
      ∀ (a : Int),
        l.foldl
          (fun s item =>
            match (items.map (evaluateItem tr)).find?
                (fun e => decide (e.id = item.id)) with
            | none => s
            | some e =>
              if e.status = .pass then s + item.weight
              else if e.status = .warn then s + jsHalfRound item.weight
              else s)
          a
        = a + (l.map
            (fun i => specContribution i.weight (evaluateItem tr i).status)).sum
  | [], _, a => by simp
  | x :: xs, h, a => by
    have hx := h x (List.mem_cons_self x xs)
    have hxs : ∀ i ∈ xs,
        (items.map (evaluateItem tr)).find? (fun e => decide (e.id = i.id))
          = some (evaluateItem tr i) :=
      fun i hi => h i (List.mem_cons_of_mem x hi)
    have ih := earnedScoreOf_eq_sum tr items xs hxs
    simp only [List.foldl_cons, hx, List.map_cons, List.sum_cons]
    rw [ih]
    cases hst : (evaluateItem tr x).status <;>
      simp [specContribution, add_assoc]

/-- The source scoring pipeline refines the spec's own-status formula when
    checklist ids are pairwise distinct. -/
lemma computeScore_eq_spec {α : Type} (items : List (CheckItemDefinition α))
    (tr : CollectedToolResults α)
    (h : (items.map CheckItemDefinition.id).Nodup) :
    computeScore items tr = specScore items tr := by
  have hmemfind : ∀ i ∈ specEvaluable items tr,
      (items.map (evaluateItem tr)).find? (fun e => decide (e.id = i.id))
        = some (evaluateItem tr i) := by
    intro i hi
    exact find?_evaluated_of_nodup tr items h i
      (List.mem_of_mem_filter (List.mem_of_mem_filter hi))
  unfold computeScore specScore specMaxScore specEarned
  show scoreOf
      (maxScoreOf (evaluableItems items (items.map (evaluateItem tr))))
      (earnedScoreOf (items.map (evaluateItem tr))
        (evaluableItems items (items.map (evaluateItem tr))))
    = _
  rw [evaluable_eq_spec items tr h]
  unfold earnedScoreOf
  rw [earnedScoreOf_eq_sum tr items (specEvaluable items tr) hmemfind 0,
    maxScoreOf_eq_sum]
  simp

/-- A workflow that returns normally returns exactly the report assembled
    from the final collected-results map. -/
lemma result_ok_eq {α : Type} (env : Env α) (url a : String)
    (items : List (CheckItemDefinition α)) (r : AuditReport)
    (h : (runWorkflow env url a items).result = .ok r) :
    r = buildReport env url a items (execResults env items) := by
  unfold runWorkflow at h
  unfold execResults
  cases hrun : runExec env items with
  | sinkFail s msg => rw [hrun] at h; exact absurd h (by simp)
  | done s =>
    rw [hrun] at h
    simp only [Except.ok.injEq] at h
    exact h.symm

/-! ## Claim C1 -/

/-- Claim C1: for every checklist (with the data model's pairwise-distinct
    item ids) and for the results map of any run, the score in the report
    returned by `runWorkflow` equals `round(earned / maxScore × 100)` when
    `maxScore > 0` and `0` otherwise, where `maxScore` sums the weights of
    the scorable items whose own evaluated status is not `error` and
    `earned` sums their contributions (full weight for `pass`,
    `round(weight × 0.5)` for `warn`, `0` for `fail`); an `error` item
    contributes to neither. -/
theorem c1_score_formula {α : Type} (env : Env α) (url a : String)
    (items : List (CheckItemDefinition α)) (r : AuditReport)
    (hid : (items.map CheckItemDefinition.id).Nodup)
    (h : (runWorkflow env url a items).result = .ok r) :
    r.score = specScore items (execResults env items) := by
  rw [result_ok_eq env url a items r h]
  show computeScore items (execResults env items) = _
  exact computeScore_eq_spec items (execResults env items) hid

/-- Witness checklist: two scorable items and one manual item. -/
def wItems : List (CheckItemDefinition Unit) :=
  [⟨"w1", "cat", "lab1", 10, true, some .ogp, some (fun _ => ⟨.pass, none⟩)⟩,
   ⟨"w2", "cat", "lab2", 10, true, some .speed, some (fun _ => ⟨.warn, none⟩)⟩,
   ⟨"w3", "cat", "lab3", 5, false, none, none⟩]

/-- Witness environment: every provider resolves instantly, the external
    sink is present, instantaneous and never fails. -/
def wEnv : Env Unit :=
  ⟨fun _ => ⟨0, .ok ()⟩, true, fun _ => ⟨0, none⟩, fun _ _ => .pass⟩

theorem c1_score_formula_witness :
    (wItems.map CheckItemDefinition.id).Nodup ∧
    (buildReport wEnv "https://example.com" "seo-audit" wItems
        (execResults wEnv wItems)).score
      = specScore wItems (execResults wEnv wItems) :=
  ⟨by decide,
   c1_score_formula wEnv "https://example.com" "seo-audit" wItems _
     (by decide) rfl⟩

/-! ## Claim C7 -/

/-- Rounding `Math.round (w * 0.5)` stays between `0` and `w` for non-negative `w`. -/
lemma jsHalfRound_bounds (w : Int) (hw : 0 ≤ w) :
    0 ≤ jsHalfRound w ∧ jsHalfRound w ≤ w := by
  unfold jsHalfRound
  rw [Int.fdiv_eq_ediv _ (by norm_num)]
  omega

/-- The earned-score fold stays between its start and start plus the sum of
    the weights, for non-negative weights. -/
lemma earned_foldl_bounds {α : Type} (evald : List CheckItemResult) :
    ∀ (l : List (CheckItemDefinition α)), (∀ i ∈ l, 0 ≤ i.weight) →
      ∀ (a : Int),
        a ≤ l.foldl
            (fun s item =>
              match evald.find? (fun e => decide (e.id = item.id)) with
              | none => s
              | some e =>
                if e.status = .pass then s + item.weight
                else if e.status = .warn then s + jsHalfRound item.weight
                else s)
            a
        ∧ l.foldl
            (fun s item =>
              match evald.find? (fun e => decide (e.id = item.id)) with
              | none => s
              | some e =>
                if e.status = .pass then s + item.weight
                else if e.status = .warn then s + jsHalfRound item.weight
                else s)
            a
          ≤ a + (l.map (fun i => i.weight)).sum
  | [], _, a => by simp
  | x :: xs, h, a => by
    have hx := h x (List.mem_cons_self x xs)
    have hxs : ∀ i ∈ xs, 0 ≤ i.weight :=
      fun i hi => h i (List.mem_cons_of_mem x hi)
    have hhalf := jsHalfRound_bounds x.weight hx
    have hstep : ∀ (b : Int),
        (match evald.find? (fun e => decide (e.id = x.id)) with
          | none => b
          | some e =>
            if e.status = .pass then b + x.weight
            else if e.status = .warn then b + jsHalfRound x.weight
            else b) = b
        ∨ (match evald.find? (fun e => decide (e.id = x.id)) with
            | none => b
            | some e =>
              if e.status = .pass then b + x.weight
              else if e.status = .warn then b + jsHalfRound x.weight
              else b) = b + x.weight
        ∨ (match evald.find? (fun e => decide (e.id = x.id)) with
            | none => b
            | some e =>
              if e.status = .pass then b + x.weight
              else if e.status = .warn then b + jsHalfRound x.weight
              else b) = b + jsHalfRound x.weight := by
      intro b
      cases evald.find? (fun e => decide (e.id = x.id)) with
      | none => exact Or.inl rfl
      | some e =>
        by_cases h1 : e.status = .pass
        · exact Or.inr (Or.inl (by simp [h1]))
        · by_cases h2 : e.status = .warn
          · exact Or.inr (Or.inr (by simp [h1, h2]))
          · exact Or.inl (by simp [h1, h2])
    simp only [List.foldl_cons, List.map_cons, List.sum_cons]
    rcases hstep a with hs | hs | hs <;>
      rw [hs] <;>
      [skip; skip; skip] <;>
      first
      | (constructor
         · exact le_trans (by omega) (earned_foldl_bounds evald xs hxs _).1
         · exact le_trans (earned_foldl_bounds evald xs hxs _).2 (by omega))

/-- The rounded ratio stays within `[0, 100]` when `0 ≤ earned ≤ maxScore`. -/
lemma scoreOf_bounds (m e : Int) (h0 : 0 ≤ e) (h1 : e ≤ m) :
    0 ≤ scoreOf m e ∧ scoreOf m e ≤ 100 := by
  unfold scoreOf
  by_cases hm : m > 0
  · rw [if_pos hm, Int.fdiv_eq_ediv _ (by omega)]
    refine ⟨Int.ediv_nonneg (by omega) (by omega), ?_⟩
    by_contra hc
    have h101 : 101 ≤ (200 * e + m) / (2 * m) := by omega
    have := (Int.le_ediv_iff_mul_le (by omega : (0:Int) < 2 * m)).mp h101
    omega
  · rw [if_neg hm]
    omega

/-- The sum of non-negative weights is non-negative. -/
lemma maxScoreOf_nonneg {α : Type} (l : List (CheckItemDefinition α))
    (h : ∀ i ∈ l, 0 ≤ i.weight) : 0 ≤ maxScoreOf l := by
  rw [maxScoreOf_eq_sum]
  apply List.sum_nonneg
  intro x hx
  rcases List.mem_map.mp hx with ⟨i, hi, rfl⟩
  exact h i hi

/-- When every provider entry is absent or a failure, every item's own
    evaluated status is `manual`, `skipped` or `error`. -/
lemma status_of_total_failure {α : Type} (tr : CollectedToolResults α)
    (htr : ∀ t, tr t = none ∨ ∃ m, tr t = some (.err m))
    (i : CheckItemDefinition α) :
    (evaluateItem tr i).status = .manual ∨
      (evaluateItem tr i).status = .skipped ∨
      (evaluateItem tr i).status = .error := by
  unfold evaluateItem
  by_cases hav : i.autoVerifiable = false
  · simp [hav]
  · rw [if_neg hav]
    cases hev : i.evaluate with
    | none => simp
    | some f =>
      cases ht : i.tier1Tool with
      | none => simp
      | some t =>
        rcases htr t with h0 | ⟨m, hm⟩
        · simp [h0]
        · simp [hm]

/-- Under total provider failure the earned-score fold never advances. -/
lemma earned_zero_of_total_failure {α : Type} (tr : CollectedToolResults α)
    (items : List (CheckItemDefinition α))
    (htr : ∀ t, tr t = none ∨ ∃ m, tr t = some (.err m)) :
    ∀ (l : List (CheckItemDefinition α)) (a : Int),
      l.foldl
        (fun s item =>
          match (items.map (evaluateItem tr)).find?
              (fun e => decide (e.id = item.id)) with
          | none => s
          | some e =>
            if e.status = .pass then s + item.weight
            else if e.status = .warn then s + jsHalfRound item.weight
            else s)
        a = a
  | [], _ => rfl
  | x :: xs, a => by
    have hstep :
        (match (items.map (evaluateItem tr)).find?
            (fun e => decide (e.id = x.id)) with
          | none => a
          | some e =>
            if e.status = .pass then a + x.weight
            else if e.status = .warn then a + jsHalfRound x.weight
            else a) = a := by
      cases hfind : (items.map (evaluateItem tr)).find?
          (fun e => decide (e.id = x.id)) with
      | none => rfl
      | some e =>
        have hmem := List.mem_of_find?_eq_some hfind
        rcases List.mem_map.mp hmem with ⟨i, _, rfl⟩
        rcases status_of_total_failure tr htr i with h | h | h <;> simp [h]
    simp only [List.foldl_cons, hstep]
    exact earned_zero_of_total_failure tr items htr xs a

/-- Claim C7: for any checklist with non-negative integer weights and any
    combination of provider outcomes, the returned score lies in `[0, 100]`;
    it is `0` whenever `maxScore = 0`, and in particular degrades to `0`
    under total provider failure. -/
theorem c7_score_bounds {α : Type} (env : Env α) (url a : String)
    (items : List (CheckItemDefinition α)) (r : AuditReport)
    (hw : ∀ i ∈ items, 0 ≤ i.weight)
    (h : (runWorkflow env url a items).result = .ok r) :
    (0 ≤ r.score ∧ r.score ≤ 100)
    ∧ (maxScoreOf (evaluableItems items
          (items.map (evaluateItem (execResults env items)))) = 0 →
        r.score = 0)
    ∧ ((∀ t, execResults env items t = none ∨
          ∃ m, execResults env items t = some (.err m)) →
        r.score = 0) := by
  rw [result_ok_eq env url a items r h]
  show (0 ≤ computeScore items (execResults env items) ∧
        computeScore items (execResults env items) ≤ 100)
    ∧ (maxScoreOf (evaluableItems items
          (items.map (evaluateItem (execResults env items)))) = 0 →
        computeScore items (execResults env items) = 0)
    ∧ ((∀ t, execResults env items t = none ∨
          ∃ m, execResults env items t = some (.err m)) →
        computeScore items (execResults env items) = 0)
  set tr := execResults env items with htr
  have hscore : computeScore items tr
      = scoreOf (maxScoreOf (evaluableItems items (items.map (evaluateItem tr))))
          (earnedScoreOf (items.map (evaluateItem tr))
            (evaluableItems items (items.map (evaluateItem tr)))) := rfl
  have hwE : ∀ i ∈ evaluableItems items (items.map (evaluateItem tr)),
      0 ≤ i.weight := by
    intro i hi
    exact hw i (List.mem_of_mem_filter (List.mem_of_mem_filter hi))
  have hbounds := earned_foldl_bounds (α := α) (items.map (evaluateItem tr))
    (evaluableItems items (items.map (evaluateItem tr))) hwE 0
  have hE0 : 0 ≤ earnedScoreOf (items.map (evaluateItem tr))
      (evaluableItems items (items.map (evaluateItem tr)))  := hbounds.1
  have hE1 : earnedScoreOf (items.map (evaluateItem tr))
        (evaluableItems items (items.map (evaluateItem tr)))
      ≤ maxScoreOf (evaluableItems items (items.map (evaluateItem tr))) := by
    have := hbounds.2
    rwa [maxScoreOf_eq_sum, ← zero_add
      ((List.map (fun i => i.weight)
        (evaluableItems items (items.map (evaluateItem tr)))).sum)]
  refine ⟨?_, ?_, ?_⟩
  · rw [hscore]
    exact scoreOf_bounds _ _ hE0 hE1
  · intro hmax
    rw [hscore, hmax]
    unfold scoreOf
    rw [if_neg (by omega)]
  · intro hfail
    have hEzero : earnedScoreOf (items.map (evaluateItem tr))
        (evaluableItems items (items.map (evaluateItem tr))) = 0 :=
      earned_zero_of_total_failure tr items hfail _ 0
    rw [hscore, hEzero]
    unfold scoreOf
    by_cases hm : maxScoreOf (evaluableItems items (items.map (evaluateItem tr))) > 0
    · rw [if_pos hm, Int.fdiv_eq_ediv _ (by omega)]
      exact Int.ediv_eq_zero_of_lt (by omega) (by omega)
    · rw [if_neg hm]

theorem c7_score_bounds_witness :
    (∀ i ∈ wItems, 0 ≤ i.weight) ∧
    (0 ≤ (buildReport wEnv "https://example.com" "seo-audit" wItems
        (execResults wEnv wItems)).score ∧
      (buildReport wEnv "https://example.com" "seo-audit" wItems
        (execResults wEnv wItems)).score ≤ 100) :=
  ⟨by decide,
   (c7_score_bounds wEnv "https://example.com" "seo-audit" wItems _
     (by decide) rfl).1⟩

/-! ## Claim C6 -/

/-- Claim C6: evaluation assigns each item's result by exhaustive cases —
    `manual` with the fixed requires-manual-review detail when not
    auto-verifiable; `skipped` when `evaluate` or the provider reference is
    absent; `error` with the provider-did-not-run detail when the provider
    is absent from the results map; `error` carrying the recorded failure
    message when the provider failed; otherwise the pair returned by
    `evaluate` on the full results map, adopted verbatim — and the report's
    checklist is exactly the item-wise evaluation of the run's results. -/
theorem c6_evaluation_cases {α : Type} (env : Env α) (url a : String)
    (items : List (CheckItemDefinition α)) (r : AuditReport)
    (h : (runWorkflow env url a items).result = .ok r) :
    r.checklist.items = items.map (evaluateItem (execResults env items))
    ∧ (∀ (tr : CollectedToolResults α) (item : CheckItemDefinition α),
        (item.autoVerifiable = false →
          evaluateItem tr item =
            ⟨item.id, item.category, item.label, .manual,
              some "手動で確認が必要です"⟩)
        ∧ (item.autoVerifiable = true →
            item.evaluate = none ∨ item.tier1Tool = none →
            evaluateItem tr item =
              ⟨item.id, item.category, item.label, .skipped,
                some "評価関数が未定義"⟩)
        ∧ (∀ f t, item.autoVerifiable = true → item.evaluate = some f →
            item.tier1Tool = some t → tr t = none →
            evaluateItem tr item =
              ⟨item.id, item.category, item.label, .error,
                some "ツールが実行されませんでした"⟩)
        ∧ (∀ f t m, item.autoVerifiable = true → item.evaluate = some f →
            item.tier1Tool = some t → tr t = some (.err m) →
            evaluateItem tr item =
              ⟨item.id, item.category, item.label, .error, some m⟩)
        ∧ (∀ f t d, item.autoVerifiable = true → item.evaluate = some f →
            item.tier1Tool = some t → tr t = some (.data d) →
            evaluateItem tr item =
              ⟨item.id, item.category, item.label,
                (f tr).status, (f tr).detail⟩)) := by
  constructor
  · rw [result_ok_eq env url a items r h]
    rfl
  · intro tr item
    refine ⟨?_, ?_, ?_, ?_, ?_⟩
    · intro hav
      simp [evaluateItem, hav]
    · intro hav hmiss
      rcases hmiss with hev | ht
      · simp [evaluateItem, hav, hev]
      · cases hev : item.evaluate <;> simp [evaluateItem, hav, hev, ht]
    · intro f t hav hev ht htr
      simp [evaluateItem, hav, hev, ht, htr]
    · intro f t m hav hev ht htr
      simp [evaluateItem, hav, hev, ht, htr]
    · intro f t d hav hev ht htr
      simp [evaluateItem, hav, hev, ht, htr]

theorem c6_evaluation_cases_witness :
    (buildReport wEnv "https://example.com" "seo-audit" wItems
        (execResults wEnv wItems)).checklist.items
      = wItems.map (evaluateItem (execResults wEnv wItems)) :=
  (c6_evaluation_cases wEnv "https://example.com" "seo-audit" wItems _ rfl).1

/-! ## Claim C2 -/

/-- Pointwise description of `markSkipped`. -/
lemma markSkipped_apply {α : Type} :
    ∀ (l : List Tier1Tool) (r : CollectedToolResults α) (t : Tier1Tool),
      markSkipped r l t
        = if t ∈ l then some (.err timeoutSkipMsg) else r t
  | [], r, t => by simp [markSkipped]
  | x :: xs, r, t => by
    rw [markSkipped, markSkipped_apply xs]
    by_cases hx : t ∈ xs
    · simp [hx, List.mem_cons]
    · by_cases htx : t = x
      · simp [hx, htx, updateResults]
      · simp [hx, htx, updateResults, List.mem_cons]

/-- Claim C2: when the workflow deadline has already passed as the next
    scheduled provider is about to start, that provider and all remaining
    ones are recorded as timeout failures, none of them is invoked (the
    trace is unchanged), the loop stops at once, and all other providers'
    recorded results are retained. -/
theorem c2_deadline_preskip {α : Type} (env : Env α) (total i : Nat)
    (rest : List Tier1Tool) (s : LoopState α)
    (h : (workflowTimeoutMs : Int) - (s.clock : Int) ≤ 0) :
    ∃ s', runLoop env total rest i s = .done s'
      ∧ (∀ t ∈ rest, s'.results t = some (.err timeoutSkipMsg))
      ∧ (∀ t, t ∉ rest → s'.results t = s.results t)
      ∧ s'.trace = s.trace := by
  cases rest with
  | nil =>
    exact ⟨s, rfl, by simp, fun t _ => rfl, rfl⟩
  | cons t ts =>
    refine ⟨{ s with results := markSkipped s.results (t :: ts) }, ?_, ?_, ?_, rfl⟩
    · show runLoop env total (t :: ts) i s = _
      simp only [runLoop]
      rw [if_pos h]
    · intro t' ht'
      show markSkipped s.results (t :: ts) t' = _
      rw [markSkipped_apply]
      exact if_pos ht'
    · intro t' ht'
      show markSkipped s.results (t :: ts) t' = _
      rw [markSkipped_apply]
      exact if_neg ht'

/-- A loop state with the deadline already expired, after two real results
    were recorded for the first two of four scheduled providers. -/
def wExpiredState : LoopState Unit :=
  ⟨60000,
   updateResults (updateResults (fun _ => none) .ogp (some (.data ())))
     .headings (some (.err "network error")),
   [Ev.sink 0 5, Ev.sink 1 5, Ev.invoke .ogp, Ev.sink 2 5, Ev.invoke .headings],
   3⟩

theorem c2_deadline_preskip_witness :
    ((workflowTimeoutMs : Int) - (wExpiredState.clock : Int) ≤ 0) ∧
    ∃ s', runLoop wEnv 4 [.alt, .links] 2 wExpiredState = .done s'
      ∧ (∀ t ∈ [Tier1Tool.alt, Tier1Tool.links],
          s'.results t = some (.err timeoutSkipMsg))
      ∧ (∀ t, t ∉ [Tier1Tool.alt, Tier1Tool.links] →
          s'.results t = wExpiredState.results t)
      ∧ s'.trace = wExpiredState.trace :=
  ⟨by decide, c2_deadline_preskip wEnv 4 2 [.alt, .links] wExpiredState (by decide)⟩

/-! ## Claim C10 -/

/-- Claim C10: the decision to skip the remaining providers is a substring
    match on the recorded error message — a provider whose own genuine
    failure message contains the timeout marker 「タイムアウト（60秒）」,
    even though the call completed well within the budget, makes the loop
    mark every subsequent scheduled provider as a timeout skip without
    invoking it and stop. -/
theorem c10_marker_error_skips {α : Type} (env : Env α) (total i : Nat)
    (t : Tier1Tool) (rest : List Tier1Tool) (s : LoopState α) (m : String)
    (hrem : 0 < (workflowTimeoutMs : Int) - (s.clock : Int))
    (hsink : env.hasSink = true → (env.sink s.sinkIdx).fails = none)
    (hdur : ((env.tool t).duration : Int)
      < (workflowTimeoutMs : Int) - (s.clock : Int))
    (hout : (env.tool t).outcome = .error m)
    (hmark : strIncludes m timeoutMarker = true)
    (hnot : t ∉ rest) :
    ∃ s', runLoop env total (t :: rest) i s = .done s'
      ∧ s'.results t = some (.err m)
      ∧ (∀ t' ∈ rest, s'.results t' = some (.err timeoutSkipMsg))
      ∧ (∀ t', t' ∉ rest → t' ≠ t → s'.results t' = s.results t')
      ∧ s'.trace = s.trace
          ++ (if env.hasSink then [Ev.sink (i + 1) (total + 1)] else [])
          ++ [Ev.invoke t] := by
  have hres : ∀ (r0 : CollectedToolResults α),
      r0 = updateResults s.results t (some (.err m)) →
      (markSkipped r0 rest t = some (.err m)
        ∧ (∀ t' ∈ rest, markSkipped r0 rest t' = some (.err timeoutSkipMsg))
        ∧ (∀ t', t' ∉ rest → t' ≠ t →
            markSkipped r0 rest t' = s.results t')) := by
    rintro r0 rfl
    refine ⟨?_, ?_, ?_⟩
    · rw [markSkipped_apply, if_neg hnot]
      simp [updateResults]
    · intro t' ht'
      rw [markSkipped_apply, if_pos ht']
    · intro t' ht' hne
      rw [markSkipped_apply, if_neg ht']
      simp [updateResults, hne]
  cases hs : env.hasSink with
  | true =>
    have hfail : (env.sink s.sinkIdx).fails = none := hsink hs
    have hrun : runLoop env total (t :: rest) i s = .done
        { clock := s.clock + (env.sink s.sinkIdx).duration + (env.tool t).duration
          results := markSkipped (updateResults s.results t (some (.err m))) rest
          trace := s.trace ++ [Ev.sink (i + 1) (total + 1)] ++ [Ev.invoke t]
          sinkIdx := s.sinkIdx + 1 } := by
      simp only [runLoop]
      rw [if_neg (by omega)]
      simp [emitSink, hs, hfail, executeTier1Tool, hout, hdur, hmark]
    refine ⟨_, hrun, ?_, ?_, ?_, ?_⟩
    · exact (hres _ rfl).1
    · exact (hres _ rfl).2.1
    · exact (hres _ rfl).2.2
    · simp [hs]
  | false =>
    have hrun : runLoop env total (t :: rest) i s = .done
        { clock := s.clock + (env.tool t).duration
          results := markSkipped (updateResults s.results t (some (.err m))) rest
          trace := s.trace ++ [Ev.invoke t]
          sinkIdx := s.sinkIdx } := by
      simp only [runLoop]
      rw [if_neg (by omega)]
      simp [emitSink, hs, executeTier1Tool, hout, hdur, hmark]
    refine ⟨_, hrun, ?_, ?_, ?_, ?_⟩
    · exact (hres _ rfl).1
    · exact (hres _ rfl).2.1
    · exact (hres _ rfl).2.2
    · simp [hs]

/-- Environment whose `ogp` provider fails quickly with a genuine error
    message that happens to contain the timeout marker text. -/
def wMarkerEnv : Env Unit :=
  ⟨fun t => ⟨0, if t = .ogp then .error "外部APIタイムアウト（60秒）発生" else .ok ()⟩,
   true, fun _ => ⟨0, none⟩, fun _ _ => .pass⟩

theorem c10_marker_error_skips_witness :
    ∃ s', runLoop wMarkerEnv 2 [.ogp, .speed] 0 ⟨0, fun _ => none, [], 1⟩
        = .done s'
      ∧ s'.results .ogp = some (.err "外部APIタイムアウト（60秒）発生")
      ∧ (∀ t' ∈ [Tier1Tool.speed], s'.results t' = some (.err timeoutSkipMsg))
      ∧ (∀ t', t' ∉ [Tier1Tool.speed] → t' ≠ .ogp →
          s'.results t' = (fun _ => none : CollectedToolResults Unit) t')
      ∧ s'.trace = ([] : List Ev)
          ++ (if wMarkerEnv.hasSink then [Ev.sink 1 3] else [])
          ++ [Ev.invoke .ogp] :=
  c10_marker_error_skips wMarkerEnv 2 0 .ogp [.speed]
    ⟨0, fun _ => none, [], 1⟩ "外部APIタイムアウト（60秒）発生"
    (by decide) (fun _ => rfl) (by decide) rfl (by decide) (by decide)

/-! ## Loop-shape machinery -/

/-- The result the race records for one started provider: the real call's
    converted outcome when it beats the remaining budget, the
    timeout-exceeded failure otherwise. -/
def stepResult {α : Type} (env : Env α) (t : Tier1Tool) (s : LoopState α) :
    ToolOutcome α :=
  if ((env.tool t).duration : Int) < (workflowTimeoutMs : Int) - (s.clock : Int)
  then executeTier1Tool env t else .err timeoutExceededMsg

/-- The loop state right after one provider's result has been recorded. -/
def stepState {α : Type} (env : Env α) (total i : Nat) (t : Tier1Tool)
    (s : LoopState α) : LoopState α :=
  ⟨(if ((env.tool t).duration : Int)
        < (workflowTimeoutMs : Int) - (s.clock : Int)
      then s.clock + (if env.hasSink then (env.sink s.sinkIdx).duration else 0)
        + (env.tool t).duration
      else s.clock + (if env.hasSink then (env.sink s.sinkIdx).duration else 0)
        + ((workflowTimeoutMs : Int) - (s.clock : Int)).toNat),
   updateResults s.results t (some (stepResult env t s)),
   s.trace ++ (if env.hasSink then [Ev.sink (i + 1) (total + 1)] else [])
     ++ [Ev.invoke t],
   (if env.hasSink then s.sinkIdx + 1 else s.sinkIdx)⟩

/-- One unexpired loop iteration with a non-failing sink call reduces to a
    branch on the recorded result. -/
lemma runLoop_cons_eq {α : Type} (env : Env α) (total i : Nat)
    (t : Tier1Tool) (rest : List Tier1Tool) (s : LoopState α)
    (hrem : ¬ ((workflowTimeoutMs : Int) - (s.clock : Int) ≤ 0))
    (hfail : env.hasSink = true → (env.sink s.sinkIdx).fails = none) :
    runLoop env total (t :: rest) i s =
      match stepResult env t s with
      | .err m =>
        if strIncludes m timeoutMarker then
          .done { stepState env total i t s with
                  results :=
                    markSkipped (stepState env total i t s).results rest }
        else runLoop env total rest (i + 1) (stepState env total i t s)
      | .data _ => runLoop env total rest (i + 1) (stepState env total i t s) := by
  cases hs : env.hasSink with
  | true =>
    have hfl := hfail hs
    by_cases hd : ((env.tool t).duration : Int)
        < (workflowTimeoutMs : Int) - (s.clock : Int)
    · cases hX : executeTier1Tool env t with
      | data d =>
        simp only [runLoop]
        rw [if_neg hrem]
        simp [emitSink, hs, hfl, hd, hX, stepResult, stepState]
      | err m =>
        by_cases hmk : strIncludes m timeoutMarker
        · simp only [runLoop]
          rw [if_neg hrem]
          simp [emitSink, hs, hfl, hd, hX, hmk, stepResult, stepState]
        · simp only [runLoop]
          rw [if_neg hrem]
          simp [emitSink, hs, hfl, hd, hX, hmk, stepResult, stepState]
    · have hmk : strIncludes timeoutExceededMsg timeoutMarker = true := by decide
      simp only [runLoop]
      rw [if_neg hrem]
      simp [emitSink, hs, hfl, hd, hmk, stepResult, stepState]
  | false =>
    by_cases hd : ((env.tool t).duration : Int)
        < (workflowTimeoutMs : Int) - (s.clock : Int)
    · cases hX : executeTier1Tool env t with
      | data d =>
        simp only [runLoop]
        rw [if_neg hrem]
        simp [emitSink, hs, hd, hX, stepResult, stepState]
      | err m =>
        by_cases hmk : strIncludes m timeoutMarker
        · simp only [runLoop]
          rw [if_neg hrem]
          simp [emitSink, hs, hd, hX, hmk, stepResult, stepState]
        · simp only [runLoop]
          rw [if_neg hrem]
          simp [emitSink, hs, hd, hX, hmk, stepResult, stepState]
    · have hmk : strIncludes timeoutExceededMsg timeoutMarker = true := by decide
      simp only [runLoop]
      rw [if_neg hrem]
      simp [emitSink, hs, hd, hmk, stepResult, stepState]

/-- The per-provider event block of a run's trace: for each started
    provider, its progress event (when a sink is present) immediately
    followed by its invocation. -/
def providerEvents (hs : Bool) (total : Nat) :
    List Tier1Tool → Nat → List Ev
  | [], _ => []
  | t :: rest, i =>
    (if hs then [Ev.sink (i + 1) (total + 1)] else [])
      ++ Ev.invoke t :: providerEvents hs total rest (i + 1)

/-- With a never-failing sink, the loop always completes, and its trace is
    the events of some executed prefix of the schedule. -/
lemma runLoop_done_trace {α : Type} (env : Env α) (total : Nat)
    (hf : env.hasSink = true → ∀ k, (env.sink k).fails = none) :
    ∀ (tools : List Tier1Tool) (i : Nat) (s : LoopState α),
      ∃ k s', k ≤ tools.length
        ∧ runLoop env total tools i s = .done s'
        ∧ s'.trace
            = s.trace ++ providerEvents env.hasSink total (tools.take k) i
  | [], i, s => ⟨0, s, Nat.le_refl 0, rfl, by simp [providerEvents]⟩
  | t :: rest, i, s => by
    by_cases hrem : (workflowTimeoutMs : Int) - (s.clock : Int) ≤ 0
    · refine ⟨0, { s with results := markSkipped s.results (t :: rest) },
        Nat.zero_le _, ?_, ?_⟩
      · show runLoop env total (t :: rest) i s = _
        simp only [runLoop]
        rw [if_pos hrem]
      · simp [providerEvents]
    · rw [runLoop_cons_eq env total i t rest s hrem (fun hs => hf hs s.sinkIdx)]
      cases hres : stepResult env t s with
      | err m =>
        by_cases hmk : strIncludes m timeoutMarker
        · refine ⟨1, { stepState env total i t s with
              results :=
                markSkipped (stepState env total i t s).results rest },
            by simp only [List.length_cons]; omega, by simp [hmk], ?_⟩
          show (stepState env total i t s).trace = _
          simp [stepState, providerEvents]
        · obtain ⟨k, s', hk, hrun, htr⟩ :=
            runLoop_done_trace env total hf rest (i + 1)
              (stepState env total i t s)
          refine ⟨k + 1, s', by simp only [List.length_cons]; omega,
            by simp [hmk, hrun], ?_⟩
          rw [htr]
          simp [stepState, providerEvents]
      | data d =>
        obtain ⟨k, s', hk, hrun, htr⟩ :=
          runLoop_done_trace env total hf rest (i + 1)
            (stepState env total i t s)
        refine ⟨k + 1, s', by simp only [List.length_cons]; omega,
          by simpa using hrun, ?_⟩
        rw [htr]
        simp [stepState, providerEvents]

/-- A non-failing awaited sink call only appends its event. -/
lemma emitSink_eq {α : Type} (env : Env α) (s : LoopState α) (p tot : Nat)
    (hfail : env.hasSink = true → (env.sink s.sinkIdx).fails = none) :
    emitSink env s p tot =
      ({ s with
          trace := s.trace ++ (if env.hasSink then [Ev.sink p tot] else [])
          clock := s.clock
            + (if env.hasSink then (env.sink s.sinkIdx).duration else 0)
          sinkIdx := (if env.hasSink then s.sinkIdx + 1 else s.sinkIdx) },
        none) := by
  cases hs : env.hasSink with
  | true => simp [emitSink, hs, hfail hs]
  | false => simp [emitSink, hs]

/-- With a never-failing sink, `runWorkflow` returns normally with the
    report assembled from the run's results, and its trace is the start
    event, the events of some executed prefix of the schedule, and the
    completion event. -/
lemma runWorkflow_shape {α : Type} (env : Env α) (url a : String)
    (items : List (CheckItemDefinition α))
    (hf : env.hasSink = true → ∀ k, (env.sink k).fails = none) :
    ∃ k, k ≤ (toolsToExecuteFor items).length
      ∧ (runWorkflow env url a items).result
          = .ok (buildReport env url a items (execResults env items))
      ∧ (runWorkflow env url a items).trace
          = (if env.hasSink then
              [Ev.sink 0 ((toolsToExecuteFor items).length + 1)] else [])
            ++ providerEvents env.hasSink (toolsToExecuteFor items).length
                ((toolsToExecuteFor items).take k) 0
            ++ (if env.hasSink then
                [Ev.sink ((toolsToExecuteFor items).length + 1)
                  ((toolsToExecuteFor items).length + 1)] else []) := by
  obtain ⟨k, s', hk, hrun, htr⟩ :=
    runLoop_done_trace env (toolsToExecuteFor items).length hf
      (toolsToExecuteFor items) 0
      ⟨0 + (if env.hasSink then (env.sink 0).duration else 0),
       fun _ => none,
       [] ++ (if env.hasSink then
          [Ev.sink 0 ((toolsToExecuteFor items).length + 1)] else []),
       (if env.hasSink then 0 + 1 else 0)⟩
  have step1 : runExec env items =
      match runLoop env (toolsToExecuteFor items).length
          (toolsToExecuteFor items) 0
          ⟨0 + (if env.hasSink then (env.sink 0).duration else 0),
           fun _ => none,
           [] ++ (if env.hasSink then
              [Ev.sink 0 ((toolsToExecuteFor items).length + 1)] else []),
           (if env.hasSink then 0 + 1 else 0)⟩ with
      | .sinkFail s m => LoopOut.sinkFail s m
      | .done s =>
        match emitSink env s ((toolsToExecuteFor items).length + 1)
            ((toolsToExecuteFor items).length + 1) with
        | (s2, some msg) => LoopOut.sinkFail s2 msg
        | (s2, none) => LoopOut.done s2 := by
    simp only [runExec]
    rw [emitSink_eq env _ _ _ (fun hs => hf hs 0)]
  have step2 : runExec env items =
      match emitSink env s' ((toolsToExecuteFor items).length + 1)
          ((toolsToExecuteFor items).length + 1) with
      | (s2, some msg) => LoopOut.sinkFail s2 msg
      | (s2, none) => LoopOut.done s2 := by
    rw [step1, hrun]
  have hexec : runExec env items = .done
      { s' with
        trace := s'.trace ++ (if env.hasSink then
          [Ev.sink ((toolsToExecuteFor items).length + 1)
            ((toolsToExecuteFor items).length + 1)] else [])
        clock := s'.clock
          + (if env.hasSink then (env.sink s'.sinkIdx).duration else 0)
        sinkIdx := (if env.hasSink then s'.sinkIdx + 1 else s'.sinkIdx) } := by
    rw [step2, emitSink_eq env s' _ _ (fun hs => hf hs s'.sinkIdx)]
  refine ⟨k, hk, ?_, ?_⟩
  · unfold runWorkflow execResults
    rw [hexec]
  · unfold runWorkflow
    rw [hexec]
    show s'.trace ++ _ = _
    rw [htr]
    simp

/-! ## Claim C5 -/

/-- Number of invocations of provider `p` recorded in a trace. -/
def invokeCount (p : Tier1Tool) (l : List Ev) : Nat :=
  l.countP (fun e => decide (e = Ev.invoke p))

lemma invokeCount_append (p : Tier1Tool) (l1 l2 : List Ev) :
    invokeCount p (l1 ++ l2) = invokeCount p l1 + invokeCount p l2 := by
  simp [invokeCount, List.countP_append]

lemma invokeCount_sinkEvs (p : Tier1Tool) (hs : Bool) (q tot : Nat) :
    invokeCount p (if hs then [Ev.sink q tot] else []) = 0 := by
  cases hs <;> simp [invokeCount]

lemma invokeCount_invoke (p t : Tier1Tool) :
    invokeCount p [Ev.invoke t] = if t = p then 1 else 0 := by
  by_cases h : t = p <;> simp [invokeCount, h]

/-- The executed-prefix events contain each provider as often as the prefix
    lists it. -/
lemma invokeCount_providerEvents (hs : Bool) (total : Nat) (p : Tier1Tool) :
    ∀ (tools : List Tier1Tool) (i : Nat),
      invokeCount p (providerEvents hs total tools i)
        = tools.countP (fun t => decide (t = p))
  | [], _ => by simp [providerEvents, invokeCount]
  | t :: rest, i => by
    have ih := invokeCount_providerEvents hs total p rest (i + 1)
    show invokeCount p ((if hs then [Ev.sink (i + 1) (total + 1)] else [])
        ++ Ev.invoke t :: providerEvents hs total rest (i + 1)) = _
    rw [invokeCount_append, invokeCount_sinkEvs,
      show (Ev.invoke t :: providerEvents hs total rest (i + 1))
        = [Ev.invoke t] ++ providerEvents hs total rest (i + 1) from rfl,
      invokeCount_append, invokeCount_invoke, ih, List.countP_cons]
    by_cases h : t = p <;> simp [h] <;> omega

/-- Whatever the environment does (including failing sinks and timeouts),
    the loop invokes each provider at most as often as it is scheduled. -/
lemma runLoop_invokeCount_le {α : Type} (env : Env α) (total : Nat)
    (p : Tier1Tool) :
    ∀ (tools : List Tier1Tool) (i : Nat) (s : LoopState α),
      invokeCount p ((runLoop env total tools i s).state).trace
        ≤ invokeCount p s.trace + tools.countP (fun t => decide (t = p))
  | [], i, s => by simp [runLoop, LoopOut.state]
  | t :: rest, i, s => by
    by_cases hrem : (workflowTimeoutMs : Int) - (s.clock : Int) ≤ 0
    · simp only [runLoop]
      rw [if_pos hrem]
      simp [LoopOut.state]
    · simp only [runLoop]
      rw [if_neg hrem]
      rcases hemit : emitSink env s (i + 1) (total + 1) with ⟨s1, fl⟩
      have hfst : (emitSink env s (i + 1) (total + 1)).1 = s1 := by rw [hemit]
      have hs1 : invokeCount p s1.trace = invokeCount p s.trace := by
        rw [← hfst]
        cases hs : env.hasSink <;>
          simp [emitSink, hs, invokeCount_append, invokeCount,
            List.countP_append]
      cases fl with
      | some msg =>
        show invokeCount p s1.trace ≤ _
        omega
      | none =>
        have hcount : ∀ (l : List Ev),
            invokeCount p (l ++ [Ev.invoke t])
              = invokeCount p l + (if t = p then 1 else 0) := by
          intro l
          rw [invokeCount_append, invokeCount_invoke]
        cases hres : (if ((env.tool t).duration : Int)
            < (workflowTimeoutMs : Int) - (s.clock : Int)
          then executeTier1Tool env t
          else ToolOutcome.err timeoutExceededMsg) with
        | err m =>
          by_cases hmk : strIncludes m timeoutMarker
          · simp only [hmk]
            show invokeCount p (s1.trace ++ [Ev.invoke t]) ≤ _
            rw [hcount, List.countP_cons]
            by_cases h : t = p <;> simp [h] <;> omega
          · simp only [hmk]
            refine le_trans (runLoop_invokeCount_le env total p rest (i + 1) _) ?_
            show invokeCount p (s1.trace ++ [Ev.invoke t]) + _ ≤ _
            rw [hcount, List.countP_cons]
            by_cases h : t = p <;> simp [h] <;> omega
        | data d =>
          refine le_trans (runLoop_invokeCount_le env total p rest (i + 1) _) ?_
          show invokeCount p (s1.trace ++ [Ev.invoke t]) + _ ≤ _
          rw [hcount, List.countP_cons]
          by_cases h : t = p <;> simp [h] <;> omega

/-- The entry point `runWorkflow` reports the trace of whatever state the execution phase
    ended in. -/
lemma runWorkflow_trace_eq {α : Type} (env : Env α) (url a : String)
    (items : List (CheckItemDefinition α)) :
    (runWorkflow env url a items).trace = ((runExec env items).state).trace := by
  unfold runWorkflow
  cases runExec env items <;> rfl

/-- Whatever the environment does, the whole execution phase invokes each
    provider at most as often as it is scheduled. -/
lemma runExec_invokeCount_le {α : Type} (env : Env α)
    (items : List (CheckItemDefinition α)) (p : Tier1Tool) :
    invokeCount p ((runExec env items).state).trace
      ≤ (toolsToExecuteFor items).countP (fun t => decide (t = p)) := by
  rcases h0 : emitSink env ⟨0, fun _ => none, [], 0⟩ 0
      ((toolsToExecuteFor items).length + 1) with ⟨s1, fl0⟩
  have hs1 : invokeCount p s1.trace = 0 := by
    have hfst : (emitSink env ⟨0, fun _ => none, [], 0⟩ 0
        ((toolsToExecuteFor items).length + 1)).1 = s1 := by rw [h0]
    rw [← hfst]
    cases hs : env.hasSink <;> simp [emitSink, hs, invokeCount]
  cases fl0 with
  | some msg =>
    have stepA : runExec env items = LoopOut.sinkFail s1 msg := by
      simp only [runExec]
      rw [h0]
    rw [stepA]
    show invokeCount p s1.trace ≤ _
    omega
  | none =>
    have stepA : runExec env items =
        match runLoop env (toolsToExecuteFor items).length
            (toolsToExecuteFor items) 0 s1 with
        | LoopOut.sinkFail s m => LoopOut.sinkFail s m
        | LoopOut.done s =>
          match emitSink env s ((toolsToExecuteFor items).length + 1)
              ((toolsToExecuteFor items).length + 1) with
          | (s2, some msg) => LoopOut.sinkFail s2 msg
          | (s2, none) => LoopOut.done s2 := by
      simp only [runExec]
      rw [h0]
    have hloop := runLoop_invokeCount_le env (toolsToExecuteFor items).length p
      (toolsToExecuteFor items) 0 s1
    cases hrun : runLoop env (toolsToExecuteFor items).length
        (toolsToExecuteFor items) 0 s1 with
    | sinkFail s2 msg =>
      rw [hrun] at hloop stepA
      rw [stepA]
      show invokeCount p s2.trace ≤ _
      simp only [LoopOut.state] at hloop
      omega
    | done s2 =>
      rw [hrun] at hloop
      simp only [LoopOut.state] at hloop
      have stepB : runExec env items =
          match emitSink env s2 ((toolsToExecuteFor items).length + 1)
              ((toolsToExecuteFor items).length + 1) with
          | (s3, some msg) => LoopOut.sinkFail s3 msg
          | (s3, none) => LoopOut.done s3 := by
        rw [stepA, hrun]
      rcases h2 : emitSink env s2 ((toolsToExecuteFor items).length + 1)
          ((toolsToExecuteFor items).length + 1) with ⟨s3, fl2⟩
      have hs3 : invokeCount p s3.trace = invokeCount p s2.trace := by
        have hfst : (emitSink env s2 ((toolsToExecuteFor items).length + 1)
            ((toolsToExecuteFor items).length + 1)).1 = s3 := by rw [h2]
        rw [← hfst]
        cases hs : env.hasSink <;>
          simp [emitSink, hs, invokeCount, List.countP_append]
      rw [h2] at stepB
      rw [stepB]
      cases fl2 with
      | some msg =>
        show invokeCount p s3.trace ≤ _
        omega
      | none =>
        show invokeCount p s3.trace ≤ _
        omega

/-- An environment in which every call is instantaneous, the sink never
    fails, and no genuine provider error message contains the timeout
    marker runs the loop to completion over the whole schedule. -/
lemma runLoop_full_fast {α : Type} (env : Env α) (total : Nat)
    (hf : env.hasSink = true → ∀ k, (env.sink k).fails = none)
    (hsd : ∀ k, (env.sink k).duration = 0)
    (htd : ∀ t, (env.tool t).duration = 0)
    (hnm : ∀ t m, (env.tool t).outcome = .error m →
      strIncludes m timeoutMarker = false) :
    ∀ (tools : List Tier1Tool) (i : Nat) (s : LoopState α), s.clock = 0 →
      ∃ s', runLoop env total tools i s = .done s'
        ∧ s'.clock = 0
        ∧ s'.trace = s.trace ++ providerEvents env.hasSink total tools i
  | [], i, s, hc => ⟨s, rfl, hc, by simp [providerEvents]⟩
  | t :: rest, i, s, hc => by
    have hrem : ¬ ((workflowTimeoutMs : Int) - (s.clock : Int) ≤ 0) := by
      rw [hc]
      norm_num [workflowTimeoutMs]
    have hd : ((env.tool t).duration : Int)
        < (workflowTimeoutMs : Int) - (s.clock : Int) := by
      rw [htd t, hc]
      norm_num [workflowTimeoutMs]
    have hstep : stepResult env t s = executeTier1Tool env t := by
      unfold stepResult
      rw [if_pos hd]
    have hclock : (stepState env total i t s).clock = 0 := by
      show (if ((env.tool t).duration : Int)
          < (workflowTimeoutMs : Int) - (s.clock : Int)
        then s.clock + (if env.hasSink then (env.sink s.sinkIdx).duration else 0)
          + (env.tool t).duration
        else s.clock + (if env.hasSink then (env.sink s.sinkIdx).duration else 0)
          + ((workflowTimeoutMs : Int) - (s.clock : Int)).toNat) = 0
      rw [if_pos hd, hc, htd t, hsd s.sinkIdx]
      cases env.hasSink <;> simp
    rw [runLoop_cons_eq env total i t rest s hrem (fun hs => hf hs s.sinkIdx)]
    obtain ⟨s', h1, h2, h3⟩ :=
      runLoop_full_fast env total hf hsd htd hnm rest (i + 1)
        (stepState env total i t s) hclock
    cases hX : (env.tool t).outcome with
    | ok dta =>
      have hres : stepResult env t s = .data dta := by
        rw [hstep]
        simp [executeTier1Tool, hX]
      refine ⟨s', ?_, h2, ?_⟩
      · simp only [hres]
        exact h1
      · rw [h3]
        simp [stepState, providerEvents]
    | error m =>
      have hres : stepResult env t s = .err m := by
        rw [hstep]
        simp [executeTier1Tool, hX]
      have hmk : strIncludes m timeoutMarker = false := hnm t m hX
      refine ⟨s', ?_, h2, ?_⟩
      · simp only [hres, hmk, Bool.false_eq_true, if_false]
        exact h1
      · rw [h3]
        simp [stepState, providerEvents]

/-- In a fast, non-failing environment the whole run's trace is the start
    event, every scheduled provider's block, and the completion event. -/
lemma runWorkflow_trace_fast {α : Type} (env : Env α) (url a : String)
    (items : List (CheckItemDefinition α))
    (hf : env.hasSink = true → ∀ k, (env.sink k).fails = none)
    (hsd : ∀ k, (env.sink k).duration = 0)
    (htd : ∀ t, (env.tool t).duration = 0)
    (hnm : ∀ t m, (env.tool t).outcome = .error m →
      strIncludes m timeoutMarker = false) :
    (runWorkflow env url a items).trace
      = (if env.hasSink then
          [Ev.sink 0 ((toolsToExecuteFor items).length + 1)] else [])
        ++ providerEvents env.hasSink (toolsToExecuteFor items).length
            (toolsToExecuteFor items) 0
        ++ (if env.hasSink then
            [Ev.sink ((toolsToExecuteFor items).length + 1)
              ((toolsToExecuteFor items).length + 1)] else []) := by
  obtain ⟨s', hrun, hclk, htr⟩ :=
    runLoop_full_fast env (toolsToExecuteFor items).length hf hsd htd hnm
      (toolsToExecuteFor items) 0
      ⟨0 + (if env.hasSink then (env.sink 0).duration else 0),
       fun _ => none,
       [] ++ (if env.hasSink then
          [Ev.sink 0 ((toolsToExecuteFor items).length + 1)] else []),
       (if env.hasSink then 0 + 1 else 0)⟩
      (by rw [hsd 0]; cases env.hasSink <;> simp)
  have step1 : runExec env items =
      match runLoop env (toolsToExecuteFor items).length
          (toolsToExecuteFor items) 0
          ⟨0 + (if env.hasSink then (env.sink 0).duration else 0),
           fun _ => none,
           [] ++ (if env.hasSink then
              [Ev.sink 0 ((toolsToExecuteFor items).length + 1)] else []),
           (if env.hasSink then 0 + 1 else 0)⟩ with
      | .sinkFail s m => LoopOut.sinkFail s m
      | .done s =>
        match emitSink env s ((toolsToExecuteFor items).length + 1)
            ((toolsToExecuteFor items).length + 1) with
        | (s2, some msg) => LoopOut.sinkFail s2 msg
        | (s2, none) => LoopOut.done s2 := by
    simp only [runExec]
    rw [emitSink_eq env _ _ _ (fun hs => hf hs 0)]
  have step2 : runExec env items =
      match emitSink env s' ((toolsToExecuteFor items).length + 1)
          ((toolsToExecuteFor items).length + 1) with
      | (s2, some msg) => LoopOut.sinkFail s2 msg
      | (s2, none) => LoopOut.done s2 := by
    rw [step1, hrun]
  have hexec : runExec env items = .done
      { s' with
        trace := s'.trace ++ (if env.hasSink then
          [Ev.sink ((toolsToExecuteFor items).length + 1)
            ((toolsToExecuteFor items).length + 1)] else [])
        clock := s'.clock
          + (if env.hasSink then (env.sink s'.sinkIdx).duration else 0)
        sinkIdx := (if env.hasSink then s'.sinkIdx + 1 else s'.sinkIdx) } := by
    rw [step2, emitSink_eq env s' _ _ (fun hs => hf hs s'.sinkIdx)]
  rw [runWorkflow_trace_eq, hexec]
  show s'.trace ++ _ = _
  rw [htr]
  simp

/-- A member of a duplicate-free list is counted exactly once. -/
lemma countP_eq_one_of_nodup_mem {p : Tier1Tool} :
    ∀ (l : List Tier1Tool), l.Nodup → p ∈ l →
      l.countP (fun t => decide (t = p)) = 1
  | [], _, h => absurd h (List.not_mem_nil p)
  | x :: xs, hnd, hmem => by
    rw [List.countP_cons]
    rcases List.mem_cons.mp hmem with rfl | hmem2
    · have hzero : xs.countP (fun t => decide (t = p)) = 0 := by
        rw [List.countP_eq_zero]
        intro t ht
        have : t ≠ p := by
          intro hEq
          exact (List.nodup_cons.mp hnd).1 (hEq ▸ ht)
        simp [this]
      simp [hzero]
    · have hne : x ≠ p := by
        intro hEq
        exact (List.nodup_cons.mp hnd).1 (hEq ▸ hmem2)
      rw [countP_eq_one_of_nodup_mem xs (List.nodup_cons.mp hnd).2 hmem2]
      simp [hne]

/-- The deduplicated canonical schedule contains each referenced provider
    exactly once. -/
lemma toolsToExecuteFor_count_one {α : Type}
    (items : List (CheckItemDefinition α)) (p : Tier1Tool)
    (href : ∃ item ∈ items, item.autoVerifiable = true
      ∧ item.tier1Tool = some p) :
    (toolsToExecuteFor items).countP (fun t => decide (t = p)) = 1 := by
  have hndExec : executionOrder.Nodup := by decide
  have hmemExec : p ∈ executionOrder := by cases p <;> simp [executionOrder]
  have hq : (fun t => items.any fun item =>
      item.autoVerifiable && decide (item.tier1Tool = some t)) p = true := by
    obtain ⟨item, hitem, hav, hrefp⟩ := href
    simp only [List.any_eq_true]
    exact ⟨item, hitem, by simp [hav, hrefp]⟩
  exact countP_eq_one_of_nodup_mem (toolsToExecuteFor items)
    (List.Nodup.filter _ hndExec)
    (List.mem_filter.mpr ⟨hmemExec, hq⟩)

/-- Claim C5: for any checklist in which any number of auto-verifiable
    items reference the same provider, the dispatcher schedules that
    provider exactly once (the deduplicated set filtered through the
    canonical order); every run invokes it at most once, and a run that is
    neither aborted by the sink nor cut short by the timeout machinery
    invokes it exactly once. -/
theorem c5_provider_dedup {α : Type} (items : List (CheckItemDefinition α))
    (p : Tier1Tool)
    (href : ∃ item ∈ items, item.autoVerifiable = true
      ∧ item.tier1Tool = some p) :
    (toolsToExecuteFor items).countP (fun t => decide (t = p)) = 1
    ∧ (∀ (env : Env α) (url a : String),
        invokeCount p (runWorkflow env url a items).trace ≤ 1)
    ∧ (∀ (env : Env α) (url a : String),
        (env.hasSink = true → ∀ k, (env.sink k).fails = none) →
        (∀ k, (env.sink k).duration = 0) →
        (∀ t, (env.tool t).duration = 0) →
        (∀ t m, (env.tool t).outcome = .error m →
          strIncludes m timeoutMarker = false) →
        invokeCount p (runWorkflow env url a items).trace = 1) := by
  have hcount := toolsToExecuteFor_count_one items p href
  refine ⟨hcount, ?_, ?_⟩
  · intro env url a
    rw [runWorkflow_trace_eq]
    calc invokeCount p ((runExec env items).state).trace
        ≤ (toolsToExecuteFor items).countP (fun t => decide (t = p)) :=
          runExec_invokeCount_le env items p
      _ = 1 := hcount
  · intro env url a hf hsd htd hnm
    rw [runWorkflow_trace_fast env url a items hf hsd htd hnm]
    rw [invokeCount_append, invokeCount_append, invokeCount_sinkEvs,
      invokeCount_sinkEvs, invokeCount_providerEvents, hcount]

theorem c5_provider_dedup_witness :
    (∃ item ∈ wItems, item.autoVerifiable = true
      ∧ item.tier1Tool = some Tier1Tool.ogp) ∧
    (toolsToExecuteFor wItems).countP
        (fun t => decide (t = Tier1Tool.ogp)) = 1 ∧
    invokeCount Tier1Tool.ogp
      (runWorkflow wEnv "https://example.com" "seo-audit" wItems).trace ≤ 1 :=
  have h := c5_provider_dedup wItems Tier1Tool.ogp
    ⟨wItems.head (by simp [wItems]), by simp [wItems], by simp [wItems],
      by simp [wItems]⟩
  ⟨⟨wItems.head (by simp [wItems]), by simp [wItems], by simp [wItems],
      by simp [wItems]⟩,
   h.1, h.2.1 wEnv "https://example.com" "seo-audit"⟩

/-! ## Claim C8 -/

/-- Claim C8: `runWorkflow` never throws for provider failure — for every
    combination of provider behaviours (throwing, rejecting, slow, or
    erroring), each failure is caught at the provider-call boundary
    (`executeTier1Tool` converts a throw into a typed error result) and,
    with the external sink not itself rejecting, `runWorkflow` returns a
    complete, well-formed `AuditReport`. -/
theorem c8_no_throw_partial_failure {α : Type} (env : Env α) (url a : String)
    (items : List (CheckItemDefinition α))
    (hf : env.hasSink = true → ∀ k, (env.sink k).fails = none) :
    (∀ t m, (env.tool t).outcome = .error m → executeTier1Tool env t = .err m)
    ∧ ∃ r : AuditReport, (runWorkflow env url a items).result = .ok r
        ∧ r.url = url
        ∧ r.auditType = a
        ∧ r.checklist.total = items.length
        ∧ r.checklist.items = items.map (evaluateItem (execResults env items))
        ∧ r.results = (toolsToExecuteFor items).map (fun t =>
            (t, toolSummaryStatus env.summarize t (execResults env items t))) := by
  refine ⟨fun t m hm => by simp [executeTier1Tool, hm], ?_⟩
  obtain ⟨k, hk, hres, htr⟩ := runWorkflow_shape env url a items hf
  refine ⟨buildReport env url a items (execResults env items),
    hres, rfl, rfl, ?_, rfl, rfl⟩
  show (items.map (evaluateItem (execResults env items))).length = items.length
  simp

/-- Environment in which every provider call rejects. -/
def wFailEnv : Env Unit :=
  ⟨fun _ => ⟨0, .error "network error"⟩, true, fun _ => ⟨0, none⟩,
   fun _ _ => .pass⟩

theorem c8_no_throw_partial_failure_witness :
    (∀ t m, (wFailEnv.tool t).outcome = .error m →
      executeTier1Tool wFailEnv t = .err m)
    ∧ ∃ r : AuditReport,
        (runWorkflow wFailEnv "https://example.com" "seo-audit" wItems).result
          = .ok r
        ∧ r.url = "https://example.com"
        ∧ r.auditType = "seo-audit"
        ∧ r.checklist.total = wItems.length
        ∧ r.checklist.items
            = wItems.map (evaluateItem (execResults wFailEnv wItems))
        ∧ r.results = (toolsToExecuteFor wItems).map (fun t =>
            (t, toolSummaryStatus wFailEnv.summarize t
              (execResults wFailEnv wItems t))) :=
  c8_no_throw_partial_failure wFailEnv "https://example.com" "seo-audit"
    wItems (fun _ _ => rfl)

/-! ## Claim C3 -/

/-- Environment whose external sink rejects at its very first call. -/
def wBadSinkEnv : Env Unit :=
  ⟨fun _ => ⟨0, .ok ()⟩, true, fun _ => ⟨0, some "notification failed"⟩,
   fun _ _ => .pass⟩

/-- Counterexample to claim C3 as stated: a caller-supplied sink whose call
    rejects is not swallowed by `runWorkflow` — the workflow aborts with
    that rejection instead of completing with a report. -/
theorem c3_counterexample :
    (runWorkflow wBadSinkEnv "https://example.com" "seo-audit" wItems).result
      = Except.error "notification failed" := rfl

/-- Model of `buildSendProgress` (index.ts lines 472-484), at the behaviour
    level: the caller wraps the underlying notification transport in a
    try/catch, so the sink actually handed to `runWorkflow` never rejects,
    whatever the transport does. -/
def buildSendProgress (transport : Nat → SinkBehavior) : Nat → SinkBehavior :=
  fun k => ⟨(transport k).duration, none⟩

/-- Amended claim C3: `runWorkflow` itself awaits the external sink without
    catching, so a rejecting sink aborts the workflow; the swallowing lives
    in the caller-side wrapper `buildSendProgress`, and with a sink built by
    that wrapper — whatever the underlying transport's failures — the
    workflow always completes normally and returns its report. -/
theorem c3_wrapped_sink_nonfatal {α : Type} (env : Env α)
    (transport : Nat → SinkBehavior) (url a : String)
    (items : List (CheckItemDefinition α))
    (hw : env.sink = buildSendProgress transport) :
    ∃ r : AuditReport, (runWorkflow env url a items).result = .ok r := by
  obtain ⟨k, hk, hres, htr⟩ :=
    runWorkflow_shape env url a items (fun _ k => by rw [hw]; rfl)
  exact ⟨_, hres⟩

/-- Environment whose sink is the wrapper applied to a transport. -/
def wWrapEnv : Env Unit :=
  ⟨fun _ => ⟨0, .ok ()⟩, true,
   buildSendProgress (fun _ => ⟨0, some "transport rejected"⟩),
   fun _ _ => .pass⟩

theorem c3_wrapped_sink_nonfatal_witness :
    ∃ r : AuditReport,
      (runWorkflow wWrapEnv "https://example.com" "seo-audit" wItems).result
        = .ok r :=
  c3_wrapped_sink_nonfatal wWrapEnv (fun _ => ⟨0, some "transport rejected"⟩)
    "https://example.com" "seo-audit" wItems rfl

/-! ## Claim C4 -/

/-- The per-provider part of the event sequence claim C4 asserts: each
    provider's event is delivered immediately after that provider's
    invocation (outcome known), with progress `index + 1`. -/
def c4ClaimedEvents (total : Nat) : List Tier1Tool → Nat → List Ev
  | [], _ => []
  | t :: rest, i =>
    Ev.invoke t :: Ev.sink (i + 1) total :: c4ClaimedEvents total rest (i + 1)

/-- The full event sequence claim C4 asserts: started event with progress
    0, one post-outcome event per provider, completed event with progress
    `total providers + 1`; in every event the `total` field equals the
    number of scheduled providers. -/
def c4ClaimedTrace (tools : List Tier1Tool) : List Ev :=
  Ev.sink 0 tools.length
    :: (c4ClaimedEvents tools.length tools 0
      ++ [Ev.sink (tools.length + 1) tools.length])

/-- Counterexample to claim C4 as stated: in a plain two-provider run the
    delivered sequence differs from the claimed one — each per-provider
    event precedes its provider's invocation, and the `total` field is the
    scheduled provider count plus one, not the scheduled provider count. -/
theorem c4_counterexample :
    (runWorkflow wEnv "https://example.com" "seo-audit" wItems).trace
      ≠ c4ClaimedTrace (toolsToExecuteFor wItems) := by decide

/-- Amended claim C4: with an external sink present and never failing, the
    delivered sequence is: one started event with progress 0; then, for
    each provider of some executed prefix of the schedule (providers
    skipped by the deadline receive no event), one event with progress =
    index + 1 emitted immediately *before* that provider is invoked; then
    one completed event with progress = total + 1.  In every event the
    `total` field is the scheduled provider count *plus one*. -/
theorem c4_trace_amended {α : Type} (env : Env α) (url a : String)
    (items : List (CheckItemDefinition α))
    (hs : env.hasSink = true)
    (hf : ∀ k, (env.sink k).fails = none) :
    ∃ k, k ≤ (toolsToExecuteFor items).length
      ∧ (runWorkflow env url a items).trace
        = Ev.sink 0 ((toolsToExecuteFor items).length + 1)
          :: (providerEvents true (toolsToExecuteFor items).length
                ((toolsToExecuteFor items).take k) 0
            ++ [Ev.sink ((toolsToExecuteFor items).length + 1)
                  ((toolsToExecuteFor items).length + 1)]) := by
  obtain ⟨k, hk, hres, htr⟩ :=
    runWorkflow_shape env url a items (fun _ k => hf k)
  refine ⟨k, hk, ?_⟩
  rw [htr, hs]
  simp

theorem c4_trace_amended_witness :
    ∃ k, k ≤ (toolsToExecuteFor wItems).length
      ∧ (runWorkflow wEnv "https://example.com" "seo-audit" wItems).trace
        = Ev.sink 0 ((toolsToExecuteFor wItems).length + 1)
          :: (providerEvents true (toolsToExecuteFor wItems).length
                ((toolsToExecuteFor wItems).take k) 0
            ++ [Ev.sink ((toolsToExecuteFor wItems).length + 1)
                  ((toolsToExecuteFor wItems).length + 1)]) :=
  c4_trace_amended wEnv "https://example.com" "seo-audit" wItems rfl
    (fun _ => rfl)

/-! ## Claim C9 -/

/-- Claim C9: a checklist with two same-id items is not rejected, and the
    scorer's id lookup takes the *first* matching evaluated result: both
    items' evaluability and contributions are driven by the first item's
    own evaluated status, and the second item's own evaluated status never
    reaches `maxScore` or `earned`. -/
theorem c9_duplicate_id_first_match {α : Type}
    (a b : CheckItemDefinition α) (tr : CollectedToolResults α)
    (hid : b.id = a.id)
    (hava : a.autoVerifiable = true) (heva : a.evaluate.isSome = true)
    (hta : a.tier1Tool.isSome = true)
    (havb : b.autoVerifiable = true) (hevb : b.evaluate.isSome = true)
    (htb : b.tier1Tool.isSome = true) :
    (∀ (env : Env α) (url u : String),
      (env.hasSink = true → ∀ k, (env.sink k).fails = none) →
      ∃ r : AuditReport, (runWorkflow env url u [a, b]).result = .ok r)
    ∧ maxScoreOf (evaluableItems [a, b] ([a, b].map (evaluateItem tr)))
        = (if (evaluateItem tr a).status ≠ .error
            then a.weight + b.weight else 0)
    ∧ earnedScoreOf ([a, b].map (evaluateItem tr))
          (evaluableItems [a, b] ([a, b].map (evaluateItem tr)))
        = specContribution a.weight (evaluateItem tr a).status
          + specContribution b.weight (evaluateItem tr a).status := by
  have hfinda : ([a, b].map (evaluateItem tr)).find?
      (fun e => decide (e.id = a.id)) = some (evaluateItem tr a) := by
    simp [List.find?, evaluateItem_id]
  have hfindb : ([a, b].map (evaluateItem tr)).find?
      (fun e => decide (e.id = b.id)) = some (evaluateItem tr a) := by
    simp [List.find?, evaluateItem_id, hid]
  have hscor : scorableItems [a, b] = [a, b] := by
    simp [scorableItems, hava, heva, hta, havb, hevb, htb]
  have hfilter : evaluableItems [a, b] ([a, b].map (evaluateItem tr))
      = (if (evaluateItem tr a).status ≠ .error then [a, b] else []) := by
    unfold evaluableItems
    rw [hscor, List.filter_cons, List.filter_cons, hfinda, hfindb]
    by_cases hsa : (evaluateItem tr a).status = .error
    · simp [hsa]
    · simp [hsa]
  refine ⟨?_, ?_, ?_⟩
  · intro env url u hf
    obtain ⟨k, hk, hres, htr⟩ := runWorkflow_shape env url u [a, b] hf
    exact ⟨_, hres⟩
  · rw [hfilter]
    by_cases hsa : (evaluateItem tr a).status = .error <;>
      simp [hsa, maxScoreOf]
  · rw [hfilter]
    have hfinda2 : List.find? (fun e => decide (e.id = a.id))
        [evaluateItem tr a, evaluateItem tr b] = some (evaluateItem tr a) :=
      hfinda
    have hfindb2 : List.find? (fun e => decide (e.id = b.id))
        [evaluateItem tr a, evaluateItem tr b] = some (evaluateItem tr a) :=
      hfindb
    cases hst : (evaluateItem tr a).status <;>
      simp [earnedScoreOf, specContribution, hst, hfinda2, hfindb2]

/-- First same-id item: passes with weight 10. -/
def wDupA : CheckItemDefinition Unit :=
  ⟨"dup", "cat", "labA", 10, true, some .ogp, some (fun _ => ⟨.pass, none⟩)⟩

/-- Second same-id item: its own evaluation fails, weight 30. -/
def wDupB : CheckItemDefinition Unit :=
  ⟨"dup", "cat", "labB", 30, true, some .ogp, some (fun _ => ⟨.fail, none⟩)⟩

/-- Results map with data for every provider. -/
def wDupTr : CollectedToolResults Unit := fun _ => some (.data ())

theorem c9_duplicate_id_first_match_witness :
    (∀ (env : Env Unit) (url u : String),
      (env.hasSink = true → ∀ k, (env.sink k).fails = none) →
      ∃ r : AuditReport, (runWorkflow env url u [wDupA, wDupB]).result = .ok r)
    ∧ maxScoreOf (evaluableItems [wDupA, wDupB]
          ([wDupA, wDupB].map (evaluateItem wDupTr)))
        = (if (evaluateItem wDupTr wDupA).status ≠ .error
            then wDupA.weight + wDupB.weight else 0)
    ∧ earnedScoreOf ([wDupA, wDupB].map (evaluateItem wDupTr))
          (evaluableItems [wDupA, wDupB]
            ([wDupA, wDupB].map (evaluateItem wDupTr)))
        = specContribution wDupA.weight (evaluateItem wDupTr wDupA).status
          + specContribution wDupB.weight (evaluateItem wDupTr wDupA).status :=
  c9_duplicate_id_first_match wDupA wDupB wDupTr rfl rfl rfl rfl rfl rfl rfl

end WorkflowRunner
